import Mathlib

/-!
Verification development for the GAM sensitivity-analysis pipeline
(`scripts/gam/baseline/GAM_baseline.py` and `scripts/utils/path_shim.py`).

Modelling conventions (shallow embedding):
* numpy floating-point values are modelled over `ℚ`; a value that may be
  non-finite (NaN or ±Inf — the loops here only ever test `np.isfinite`,
  which is false for all three) is `Option ℚ`, with `none` standing for a
  non-finite value and `some q` for the finite value `q`.
* Matrices are lists of rows.  `np.loadtxt` squeezing (a 1×c or r×1 text
  file parses to a 1-D array, a 1×1 file to a 0-D array) is modelled by
  `ndimOf`.
* Python float formatting (`f"{x:.3f}"`, round-half-even) is modelled on
  exact rationals by `fmtFixed`; `str(x)` on a float whose intended value
  is a terminating decimal is modelled by `pyRepr`.
* The filesystem seen by the response-file finder is a list of
  `(directory, name, mtime)` entries; `Path.glob` listings are filters
  over the entries of one directory, and `root.exists()` being false is
  behaviourally identical to the directory holding no files.
* The pygam `LinearGAM` fitter is an external library (spec §4.4 treats it
  as an opaque capability `fit(X, y) -> surface`, a pure function once
  trained); it enters the model as an explicit function parameter.
-/

namespace GamPipeline

-- The Batteries rational-number operations are `@[irreducible]`, which
-- blocks `decide` on concrete rational facts; re-allow unfolding them
-- locally (reducibility attributes are elaborator hints only — the kernel
-- re-checks every proof regardless).
attribute [local semireducible] Rat.add Rat.mul Rat.inv Rat.sub Rat.ofScientific

/-- A numpy scalar: `some q` is the finite value `q`, `none` is a
non-finite value (NaN, `inf` or `-inf`; `np.isfinite` is false for all). -/
abbrev V : Type := Option ℚ

/-! ## String helpers (models of the regex / glob operations used) -/

/-- Does `hay` contain `needle` as a contiguous sublist?  Models Python's
`needle in hay` on strings. -/
def listContains (hay needle : List Char) : Bool :=
  match hay with
  | [] => needle.isEmpty
  | _ :: t => needle.isPrefixOf hay || listContains t needle

def strContains (hay needle : String) : Bool :=
  listContains hay.data needle.data

def strHasPrefix (pre s : String) : Bool :=
  pre.data.isPrefixOf s.data

def strHasSuffix (suf s : String) : Bool :=
  suf.data.isSuffixOf s.data

/-- Model of an anchored regex `^<pre>(\d+)<suf>$`: the name is `pre`,
then a nonempty run of digits, then `suf`. -/
def matchMid (pre suf name : String) : Bool :=
  let s := name.data
  let p := pre.data
  let q := suf.data
  p.isPrefixOf s && q.isSuffixOf s &&
    decide (p.length + q.length < s.length) &&
    ((s.drop p.length).take (s.length - p.length - q.length)).all Char.isDigit

def digitsToNat (ds : List Char) : Nat :=
  ds.foldl (fun a c => a * 10 + (c.toNat - ('0').toNat)) 0

/-! ## Decimal formatting of rationals (models of Python float formatting) -/

/-- Round to the nearest integer, ties to even — the rounding used by
Python's fixed-precision float formatting. -/
def roundHalfEven (q : ℚ) : ℤ :=
  let f : ℤ := q.floor
  let r : ℚ := q - (f : ℚ)
  if r < 1/2 then f
  else if (1:ℚ)/2 < r then f + 1
  else if f % 2 = 0 then f else f + 1

/-- `n` rendered in decimal, left-padded with zeros to `prec` digits. -/
def natPad (prec n : Nat) : String :=
  let s := toString n
  String.mk (List.replicate (prec - s.length) '0') ++ s

/-- Model of Python `f"{x:.prec f}"` on the exact rational value of `x`. -/
def fmtFixed (prec : Nat) (q : ℚ) : String :=
  let neg := q < 0
  let n : ℤ := roundHalfEven (|q| * (10 : ℚ) ^ prec)
  let na := n.toNat
  (if neg then "-" else "") ++ toString (na / 10 ^ prec) ++
    (if prec = 0 then "" else "." ++ natPad prec (na % 10 ^ prec))

/-- Model of Python `str(x)` / `f"{x}"` for a float whose intended value is
the terminating decimal `q` (shortest-roundtrip printing then yields the
exact decimal expansion, with at least one fractional digit).  Rationals
with no terminating decimal expansion of at most 64 digits fall back to a
17-place rendering; no value used by this repository reaches the fallback. -/
def pyRepr (q : ℚ) : String :=
  let neg := q < 0
  let a := |q|
  match (List.range 64).find? (fun k => (a * (10 : ℚ) ^ (k + 1)).den = 1) with
  | some k =>
      let d := k + 1
      let n := (a * (10 : ℚ) ^ d).num.toNat
      (if neg then "-" else "") ++ toString (n / 10 ^ d) ++ "." ++
        natPad d (n % 10 ^ d)
  | none => fmtFixed 17 q

/-! ## Filesystem model -/

/-- One file visible to the search: its directory (as a path string), its
base name, and its modification time. -/
structure Fl where
  dir : String
  name : String
  mtime : ℤ
deriving DecidableEq, Repr

/-- The filesystem: the list of files, in directory-listing order. -/
abbrev FS : Type := List Fl

/-- The files of one directory, in listing order (model of `Path.glob`
before any name filtering). -/
def dirFiles (fs : FS) (dir : String) : List Fl :=
  fs.filter (fun f => f.dir == dir)

/-! ## `scripts/utils/path_shim.py` -/

/-- `tiny_input_dir`: `examples/tiny_sample_inputs/H2SO4/jan` (the month
component is hard-coded to `jan` in the source). -/
def tiny_input_dir : String := "examples/tiny_sample_inputs/H2SO4/jan"

/-- `tiny_gp_out_dir`: `examples/tiny_sample_outputs/gp_emulation`. -/
def tiny_gp_out_dir : String := "examples/tiny_sample_outputs/gp_emulation"

/-- `tiny_gam_out_dir`: `examples/tiny_sample_outputs/gam_variance`. -/
def tiny_gam_out_dir : String := "examples/tiny_sample_outputs/gam_variance"

/-- The `lat<ilat:.3f>` folder component. -/
def latFolder (ilat : ℚ) : String := "lat" ++ fmtFixed 3 ilat

/-- The three roots searched by `find_gp_file`, in order. -/
def searchRoots (ilat : ℚ) : List String :=
  [tiny_gp_out_dir ++ "/baseline/" ++ latFolder ilat,
   tiny_gp_out_dir ++ "/optimised/" ++ latFolder ilat,
   tiny_gp_out_dir ++ "/" ++ latFolder ilat]

/-- The glob pattern `emulated_mean_values_H2SO4_*.dat`. -/
def globEm (name : String) : Bool :=
  strHasPrefix "emulated_mean_values_H2SO4_" name && strHasSuffix ".dat" name &&
    decide ("emulated_mean_values_H2SO4_".length + ".dat".length ≤ name.length)

/-- The glob pattern `*.dat`. -/
def globDat (name : String) : Bool := strHasSuffix ".dat" name

/-- The strict pattern: `^emulated_mean_values_H2SO4_<month>_ilat_<lat:.3f>_ilon_<lon:.4f>_(\d+)_w_o_carb\.dat$`. -/
def preciseMatch (ilat ilon : ℚ) (month : String) (name : String) : Bool :=
  matchMid ("emulated_mean_values_H2SO4_" ++ month ++ "_ilat_" ++ fmtFixed 3 ilat
      ++ "_ilon_" ++ fmtFixed 4 ilon ++ "_") "_w_o_carb.dat" name

/-- First relaxed pattern: longitude at 3 decimals instead of 4. -/
def relaxed1Match (ilat ilon : ℚ) (month : String) (name : String) : Bool :=
  matchMid ("emulated_mean_values_H2SO4_" ++ month ++ "_ilat_" ++ fmtFixed 3 ilat
      ++ "_ilon_" ++ fmtFixed 3 ilon ++ "_") "_w_o_carb.dat" name

/-- Second relaxed pattern: `str()` rendering of both coordinates. -/
def relaxed2Match (ilat ilon : ℚ) (month : String) (name : String) : Bool :=
  matchMid ("emulated_mean_values_H2SO4_" ++ month ++ "_ilat_" ++ pyRepr ilat
      ++ "_ilon_" ++ pyRepr ilon ++ "_") "_w_o_carb.dat" name

/-- Ultra-relaxed tier: any `*.dat` whose name contains the component
prefix, the month, and both coordinates at 3 decimals, as substrings. -/
def tokenMatch (ilat ilon : ℚ) (month : String) (name : String) : Bool :=
  globDat name &&
    strContains name "emulated_mean_values_H2SO4_" &&
    strContains name month &&
    strContains name (fmtFixed 3 ilat) &&
    strContains name (fmtFixed 3 ilon)

/-- The candidates contributed by one search root: the strict pattern
first; if it matched nothing, the first relaxed pattern that matches
anything; if neither, the substring-token tier.  (In the source this is
the body of the `for root in search_roots` loop with its `break`s; a
non-existent root lists no files, which lands in the same `[]` result.) -/
def rootCandidates (fs : FS) (ilat ilon : ℚ) (month : String) (root : String) :
    List Fl :=
  let files := dirFiles fs root
  let prec := files.filter (fun f => globEm f.name && preciseMatch ilat ilon month f.name)
  if prec ≠ [] then prec
  else
    let r1 := files.filter (fun f => globEm f.name && relaxed1Match ilat ilon month f.name)
    if r1 ≠ [] then r1
    else
      let r2 := files.filter (fun f => globEm f.name && relaxed2Match ilat ilon month f.name)
      if r2 ≠ [] then r2
      else files.filter (fun f => tokenMatch ilat ilon month f.name)

/-- `candidates.sort(key=mtime, reverse=True); return candidates[0]`:
Python's sort is stable, so the returned file is the first, in listing
order, among those of maximal mtime. -/
def newestFrom (f : Fl) (rest : List Fl) : Fl :=
  rest.foldl (fun b c => if b.mtime < c.mtime then c else b) f

/-- The raw-demo fallback name `lat_<ilat:.3f>_lon_<ilon:.3f>.dat`. -/
def rawFallbackName (ilat ilon : ℚ) : String :=
  "lat_" ++ fmtFixed 3 ilat ++ "_lon_" ++ fmtFixed 3 ilon ++ ".dat"

/-- Model of `path_shim.find_gp_file`: scan the three roots in order,
stopping at the first root (and, inside it, the first tier) that yields
candidates — this mirrors the `break`-structured accumulation of the
source; then return the newest candidate, or fall back to the raw demo
input, or fail. -/
def find_gp_file (fs : FS) (ilat ilon : ℚ) (month : String) : Except String Fl :=
  let candidates :=
    (searchRoots ilat).foldl
      (fun acc root => if acc ≠ [] then acc
                       else rootCandidates fs ilat ilon month root) []
  match candidates with
  | [] =>
      match (dirFiles fs tiny_input_dir).find?
          (fun f => f.name == rawFallbackName ilat ilon) with
      | some f => .ok f
      | none => .error "No GP emulation file found"
  | c :: rest => .ok (newestFrom c rest)

/-! ## Statistics (models of the numpy reductions used) -/

/-- `np.mean` over reals.  (Division by zero in `ℚ` yields 0; the code
never takes the mean of an empty vector on a path that uses it.) -/
def mean (xs : List ℚ) : ℚ := xs.sum / (xs.length : ℚ)

/-- `np.var(xs)` / the square of `np.nanstd(xs)` on all-finite data:
population variance, ddof = 0. -/
def popVar (xs : List ℚ) : ℚ :=
  (xs.map (fun x => (x - mean xs) ^ 2)).sum / (xs.length : ℚ)

/-- `np.var(xs, ddof=1)`: sample variance. -/
def sampleVar (xs : List ℚ) : ℚ :=
  (xs.map (fun x => (x - mean xs) ^ 2)).sum / ((xs.length : ℚ) - 1)

/-- `np.cov(xs, ys, ddof=1)[0, 1]`: sample covariance (both lists have the
same length wherever this is used). -/
def sampleCov (xs ys : List ℚ) : ℚ :=
  ((xs.zip ys).map (fun p => (p.1 - mean xs) * (p.2 - mean ys))).sum /
    ((xs.length : ℚ) - 1)

/-- Insert into a sorted list (ascending). -/
def insertSorted (x : ℚ) : List ℚ → List ℚ
  | [] => [x]
  | y :: t => if x ≤ y then x :: y :: t else y :: insertSorted x t

/-- Ascending sort (insertion sort — any sort gives the data `np.median`
reads, since only the multiset of values matters). -/
def sortQ (xs : List ℚ) : List ℚ := xs.foldr insertSorted []

/-- `np.median`: middle element of the sorted data, or the average of the
two middle elements. -/
def median (xs : List ℚ) : ℚ :=
  let s := sortQ xs
  let n := xs.length
  if n = 0 then 0
  else if n % 2 = 1 then s.getD (n / 2) 0
  else (s.getD (n / 2 - 1) 0 + s.getD (n / 2) 0) / 2

/-! ## `np.loadtxt` shape semantics -/

/-- The number of dimensions of the array `np.loadtxt` parses from a text
matrix of the given rows: mono-dimensional axes are squeezed (default
`ndmin=0`), so a single row of c ≥ 2 values or r rows of one value parse
to a 1-D array, a single value to a 0-D array and an empty file to shape
`(0,)`. -/
def ndimOf {α : Type} (m : List (List α)) : Nat :=
  match m with
  | [] => 1
  | [r] => if r.length = 1 then 0 else 1
  | r :: _ :: _ => if r.length = 1 then 1 else 2

/-- `shape[1]` of a parsed 2-D matrix (length of the first row). -/
def ncolsOf {α : Type} (m : List (List α)) : Nat := (m.headD []).length

/-! ## `scripts/gam/baseline/GAM_baseline.py` -/

/-- The errors `main` can raise: `FileNotFoundError` or `ValueError`. -/
inductive PyErr where
  | fileNotFoundError (msg : String)
  | valueError (msg : String)
deriving DecidableEq, Repr

deriving instance DecidableEq for Except

/-- `PAR_INDEX`: the fixed 37-of-55 column subset. -/
def PAR_INDEX : List Nat :=
  [0, 1, 2, 20, 21, 22, 23, 24, 25, 26, 27, 28, 29, 30, 31, 32,
   33, 34, 35, 36, 37, 38, 39, 40, 41, 43, 44, 45, 46, 47, 48,
   49, 50, 51, 52, 53, 54]

/-- `load_lhc_first_n`: raise if the file is missing, if the parsed array
is not a 2-D matrix with at least 55 columns, or if it has fewer than
`rows_needed` rows; otherwise return the first `rows_needed` rows
restricted to `PAR_INDEX`.  The sample-file argument is `none` when the
file does not exist, `some rows` with its parsed contents otherwise. -/
def load_lhc_first_n (sample : Option (List (List V))) (rows_needed : Nat) :
    Except PyErr (List (List V)) :=
  match sample with
  | none => .error (.fileNotFoundError "Missing LHC sample file")
  | some LHC =>
      if ndimOf LHC ≠ 2 ∨ ncolsOf LHC < 55 then
        .error (.valueError "LHC must be [n,>=55]")
      else if LHC.length < rows_needed then
        .error (.valueError "LHC has too few rows")
      else
        .ok ((LHC.take rows_needed).map (fun r => PAR_INDEX.map (fun j => r.getD j none)))

/-- The response-vector load in `main`: `y = np.loadtxt(gp_file)`, first
column if 2-D with more than one column, then `ravel()`. -/
def loadVector (m : List (List V)) : List V :=
  if ndimOf m = 2 ∧ 1 < ncolsOf m then m.map (fun r => r.getD 0 none) else m.flatten

/-- `_(\d+)_w_o_carb\.dat$` searched in a file name: the name must end in
`_w_o_carb.dat` preceded by a nonempty digit run preceded by `_`; the
recovered count is that digit run. -/
def inferNGp (name : String) : Option Nat :=
  let s := name.data
  let suf := "_w_o_carb.dat".data
  if suf.isSuffixOf s then
    let core := s.take (s.length - suf.length)
    let ds := (core.reverse.takeWhile Char.isDigit).reverse
    let rest := core.take (core.length - ds.length)
    if ds ≠ [] ∧ rest.getLast? = some '_' then some (digitsToNat ds) else none
  else none

/-! ### Data cleaning -/

/-- All entries of a row are finite. -/
def finiteRow (r : List V) : Bool := r.all Option.isSome

/-- The `(response, parameter-row)` pairs surviving the finiteness mask
`np.isfinite(y) & ⋀ⱼ np.isfinite(X[:, j])`, in row order. -/
def keptPairs (X : List (List V)) (y : List V) : List (V × List V) :=
  (y.zip X).filter (fun p => p.1.isSome && finiteRow p.2)

/-- Extraction of a value known to be finite. -/
def ratOf (v : V) : ℚ := v.getD 0

/-- The cleaning stage: `mask` rows of `X`/`y`, raise
`ValueError("No finite rows remain after cleaning X/y.")` if none
survive. -/
def cleanStep (X : List (List V)) (y : List V) :
    Except PyErr (List (List ℚ) × List ℚ) :=
  let kept := keptPairs X y
  if kept = [] then .error (.valueError "No finite rows remain after cleaning X/y.")
  else .ok (kept.map (fun p => p.2.map ratOf), kept.map (fun p => ratOf p.1))

/-! ### The sensitivity loop -/

/-- `Xn[:, i]` (within-bounds wherever used). -/
def column (X : List (List ℚ)) (i : Nat) : List ℚ := X.map (fun r => r.getD i 0)

/-- `np.median(Xn, axis=0)`. -/
def medVec (X : List (List ℚ)) : List ℚ :=
  (List.range (ncolsOf X)).map (fun j => median (column X j))

/-- The degenerate-column guard `np.nanstd(xcol) < 1e-12`, stated on the
variance: for all-finite data `nanstd = √popVar`, and for a threshold
`t ≥ 0`, `√v < t ↔ v < t²`, so the guard is `popVar xcol < 10⁻²⁴`. -/
def stdThreshSq : ℚ := 1 / 10 ^ 24

/-- `eps_var = 1e-15`. -/
def epsVar : ℚ := 1 / 10 ^ 15

/-- `1.0 if slope > 0 else (-1.0 if slope < 0 else 0.0)`. -/
def ratSign (q : ℚ) : ℚ := if 0 < q then 1 else if q < 0 then -1 else 0

/-- The loop state: the reused buffer `X_med` plus the accumulated
`variances` and `grad_sign` entries; `evals` logs, for claim-checking,
each matrix actually passed to `gam.predict` with its iteration index. -/
structure SweepState where
  buf : List (List ℚ)
  vars : List ℚ
  sgns : List ℚ
  evals : List (Nat × List (List ℚ))

/-- `X_med[:, :] = med`: every row of the buffer becomes `med`. -/
def setAllRows (buf : List (List ℚ)) (m : List ℚ) : List (List ℚ) :=
  buf.map (fun _ => m)

/-- `X_med[:, i] = xcol`: entry `i` of row `k` becomes `xcol[k]`. -/
def setColTo (buf : List (List ℚ)) (i : Nat) (xs : List ℚ) : List (List ℚ) :=
  List.zipWith (fun r x => r.set i x) buf xs

/-- One iteration of the `for i in range(Xn.shape[1])` loop. -/
def sweepStep (predict : List ℚ → V) (Xn : List (List ℚ)) (m : List ℚ)
    (st : SweepState) (i : Nat) : SweepState :=
  let xcol := column Xn i
  if popVar xcol < stdThreshSq then
    { st with vars := st.vars ++ [0], sgns := st.sgns ++ [0] }
  else
    let buf2 := setColTo (setAllRows st.buf m) i xcol
    let y_pred := buf2.map predict
    -- finite mask: np.isfinite(xcol) & np.isfinite(y_pred).  `xcol` is a
    -- column of the cleaned matrix, hence all-finite, so the joint mask
    -- keeps exactly the rows whose prediction is finite.
    let pairs := (xcol.zip y_pred).filterMap (fun p => p.2.map (fun yq => (p.1, yq)))
    if pairs.length < 2 then
      { buf := buf2, vars := st.vars ++ [0], sgns := st.sgns ++ [0],
        evals := st.evals ++ [(i, buf2)] }
    else
      let yv := pairs.map Prod.snd
      let xv := pairs.map Prod.fst
      let varI := if 1 < yv.length then sampleVar yv else 0
      let vx := if 1 < xv.length then sampleVar xv else 0
      let slope := if vx < epsVar then 0 else sampleCov xv yv / vx
      { buf := buf2, vars := st.vars ++ [varI], sgns := st.sgns ++ [ratSign slope],
        evals := st.evals ++ [(i, buf2)] }

/-- The whole sensitivity loop: allocate `X_med = np.tile(med, (N, 1))`
once, then fold the loop body over `i = 0 .. Xn.shape[1] - 1`. -/
def sweepAll (predict : List ℚ → V) (Xn : List (List ℚ)) : SweepState :=
  let m := medVec Xn
  (List.range (ncolsOf Xn)).foldl (sweepStep predict Xn m)
    ⟨Xn.map (fun _ => m), [], [], []⟩

/-! ### Pure per-iteration description of the loop -/

/-- The synthetic design matrix of iteration `i` as the spec describes it:
row `k` is the column-wise median vector with entry `i` replaced by
`Xn[k, i]`. -/
def sweepMatrix (Xn : List (List ℚ)) (i : Nat) : List (List ℚ) :=
  (column Xn i).map (fun x => (medVec Xn).set i x)

/-- The finite `(x, y_pred)` pairs of iteration `i`. -/
def finitePairsAt (predict : List ℚ → V) (Xn : List (List ℚ)) (i : Nat) :
    List (ℚ × ℚ) :=
  ((column Xn i).zip ((sweepMatrix Xn i).map predict)).filterMap
    (fun p => p.2.map (fun yq => (p.1, yq)))

/-- The (variance, sign, surface-evaluated?) triple of iteration `i`. -/
def iterRes (predict : List ℚ → V) (Xn : List (List ℚ)) (i : Nat) :
    ℚ × ℚ × Bool :=
  if popVar (column Xn i) < stdThreshSq then (0, 0, false)
  else
    let pairs := finitePairsAt predict Xn i
    if pairs.length < 2 then (0, 0, true)
    else
      let yv := pairs.map Prod.snd
      let xv := pairs.map Prod.fst
      let varI := if 1 < yv.length then sampleVar yv else 0
      let vx := if 1 < xv.length then sampleVar xv else 0
      let slope := if vx < epsVar then 0 else sampleCov xv yv / vx
      (varI, ratSign slope, true)

/-! ### The pipeline (`main`) -/

structure Args where
  ilat : ℚ
  ilon : ℚ
  month : String

/-- The inputs a run reads: the searchable filesystem, the parsed numeric
contents of each file (addressed by directory and name), and the parsed
raw LHC sample file (`none` when missing). -/
structure Inputs where
  fs : FS
  content : String → String → List (List V)
  sample : Option (List (List V))

/-- The output directory `tiny_gam_out_dir / "baseline" / f"lat{ilat:.3f}"`. -/
def gamOutDir (ilat : ℚ) : String :=
  tiny_gam_out_dir ++ "/baseline/" ++ latFolder ilat ++ "/"

/-- `f"GAM_variances_{VAR}_{month}_{N_out}_ilat_{ilat:.3f}_ilon_{ilon:.4f}.dat"`. -/
def varFileName (a : Args) (label : Nat) : String :=
  gamOutDir a.ilat ++ "GAM_variances_H2SO4_" ++ a.month ++ "_" ++ toString label ++
    "_ilat_" ++ fmtFixed 3 a.ilat ++ "_ilon_" ++ fmtFixed 4 a.ilon ++ ".dat"

/-- `f"GAM_gradient_signs_{VAR}_{month}_{N_out}_ilat_{ilat:.3f}_ilon_{ilon:.4f}.dat"`. -/
def signFileName (a : Args) (label : Nat) : String :=
  gamOutDir a.ilat ++ "GAM_gradient_signs_H2SO4_" ++ a.month ++ "_" ++ toString label ++
    "_ilat_" ++ fmtFixed 3 a.ilat ++ "_ilon_" ++ fmtFixed 4 a.ilon ++ ".dat"

/-- The two files a successful run writes. -/
structure RunOut where
  varFile : String
  varData : List ℚ
  signFile : String
  signData : List ℚ
deriving DecidableEq

/-- `main`, from response discovery to the two output vectors.  `fit` is
the opaque `LinearGAM().fit` capability of spec §4.4: from the cleaned
`(Xn, yn)` it yields the fitted surface as a pure per-row predictor. -/
def runPipeline (inp : Inputs) (a : Args)
    (fit : List (List ℚ) → List ℚ → List ℚ → V) : Except PyErr RunOut :=
  match find_gp_file inp.fs a.ilat a.ilon a.month with
  | .error e => .error (.fileNotFoundError e)
  | .ok gp =>
    let nGp : Option Nat := inferNGp gp.name
    let y : List V := loadVector (inp.content gp.dir gp.name)
    match load_lhc_first_n inp.sample y.length with
    | .error e => .error e
    | .ok X =>
      match cleanStep X y with
      | .error e => .error e
      | .ok (Xn, yn) =>
        let res := sweepAll (fit Xn yn) Xn
        let N_out : Nat := match nGp with
          | some k => if k = y.length then k else yn.length
          | none => yn.length
        .ok ⟨varFileName a N_out, res.vars, signFileName a N_out, res.sgns⟩

/-- The durable output store: file name ↦ written vector.  (`np.savetxt`
serialises a vector with a fixed pure format, so equal vectors give
byte-identical files.) -/
def Store : Type := String → Option (List ℚ)

/-- One `np.savetxt`: overwrite the named file wholesale. -/
def writeFile (st : Store) (name : String) (data : List ℚ) : Store :=
  fun n => if n = name then some data else st n

/-- A whole run against a store: on success write both outputs, on any
error leave the store untouched. -/
def runAndWrite (inp : Inputs) (a : Args)
    (fit : List (List ℚ) → List ℚ → List ℚ → V) (st : Store) : Store :=
  match runPipeline inp a fit with
  | .ok r => writeFile (writeFile st r.varFile r.varData) r.signFile r.signData
  | .error _ => st

/-! ## Structural lemmas about the sweep loop -/

lemma length_column (Xn : List (List ℚ)) (i : Nat) :
    (column Xn i).length = Xn.length := by
  simp [column]

lemma length_sweepMatrix (Xn : List (List ℚ)) (i : Nat) :
    (sweepMatrix Xn i).length = Xn.length := by
  simp [sweepMatrix, length_column]

lemma setColTo_setAllRows (buf : List (List ℚ)) (m : List ℚ) (i : Nat)
    (xs : List ℚ) (h : buf.length = xs.length) :
    setColTo (setAllRows buf m) i xs = xs.map (fun x => m.set i x) := by
  induction buf generalizing xs with
  | nil =>
      cases xs with
      | nil => rfl
      | cons x xt => simp at h
  | cons r t ih =>
      cases xs with
      | nil => simp at h
      | cons x xt =>
          have h2 : t.length = xt.length := by simpa using h
          simp only [setAllRows, List.map_cons, setColTo, List.zipWith_cons_cons,
            List.cons.injEq, true_and]
          exact ih xt h2

/-- The loop body, described by the pure per-iteration function `iterRes`:
an iteration with a non-constant column always evaluates the surface on
the canonical sweep matrix of that iteration, whatever the buffer held
before. -/
lemma sweepStep_char (predict : List ℚ → V) (Xn : List (List ℚ))
    (st : SweepState) (i : Nat) (h : st.buf.length = Xn.length) :
    sweepStep predict Xn (medVec Xn) st i =
      { buf := if (iterRes predict Xn i).2.2 then sweepMatrix Xn i else st.buf,
        vars := st.vars ++ [(iterRes predict Xn i).1],
        sgns := st.sgns ++ [(iterRes predict Xn i).2.1],
        evals := st.evals ++
          (if (iterRes predict Xn i).2.2 then [(i, sweepMatrix Xn i)] else []) } := by
  have hb : setColTo (setAllRows st.buf (medVec Xn)) i (column Xn i)
      = sweepMatrix Xn i := by
    rw [setColTo_setAllRows st.buf (medVec Xn) i (column Xn i)
      (by rw [h, length_column])]
    rfl
  by_cases hdeg : popVar (column Xn i) < stdThreshSq
  · simp [sweepStep, iterRes, hdeg]
  · by_cases hp : (finitePairsAt predict Xn i).length < 2
    · simp only [finitePairsAt] at hp
      simp [sweepStep, iterRes, hdeg, hb, finitePairsAt, hp]
    · simp only [finitePairsAt] at hp
      simp [sweepStep, iterRes, hdeg, hb, finitePairsAt, hp]

lemma foldl_sweep_char (predict : List ℚ → V) (Xn : List (List ℚ))
    (idxs : List Nat) (st : SweepState) (h : st.buf.length = Xn.length) :
    (idxs.foldl (sweepStep predict Xn (medVec Xn)) st).vars
        = st.vars ++ idxs.map (fun i => (iterRes predict Xn i).1) ∧
    (idxs.foldl (sweepStep predict Xn (medVec Xn)) st).sgns
        = st.sgns ++ idxs.map (fun i => (iterRes predict Xn i).2.1) ∧
    (idxs.foldl (sweepStep predict Xn (medVec Xn)) st).evals
        = st.evals ++ idxs.filterMap (fun i =>
            if (iterRes predict Xn i).2.2 then some (i, sweepMatrix Xn i) else none) ∧
    (idxs.foldl (sweepStep predict Xn (medVec Xn)) st).buf.length = Xn.length := by
  induction idxs generalizing st with
  | nil => exact ⟨by simp, by simp, by simp, h⟩
  | cons i t ih =>
      rw [List.foldl_cons, sweepStep_char predict Xn st i h]
      have h2 : (SweepState.mk
          (if (iterRes predict Xn i).2.2 then sweepMatrix Xn i else st.buf)
          (st.vars ++ [(iterRes predict Xn i).1])
          (st.sgns ++ [(iterRes predict Xn i).2.1])
          (st.evals ++
            (if (iterRes predict Xn i).2.2 then [(i, sweepMatrix Xn i)] else []))).buf.length
          = Xn.length := by
        dsimp only
        split
        · exact length_sweepMatrix Xn i
        · exact h
      obtain ⟨hv, hs, he, hb⟩ := ih _ h2
      refine ⟨?_, ?_, ?_, hb⟩
      · rw [hv]; simp [List.append_assoc]
      · rw [hs]; simp [List.append_assoc]
      · rw [he]
        by_cases hc : (iterRes predict Xn i).2.2 <;>
          simp [hc, List.filterMap_cons, List.append_assoc]

lemma sweepAll_char (predict : List ℚ → V) (Xn : List (List ℚ)) :
    (sweepAll predict Xn).vars
        = (List.range (ncolsOf Xn)).map (fun i => (iterRes predict Xn i).1) ∧
    (sweepAll predict Xn).sgns
        = (List.range (ncolsOf Xn)).map (fun i => (iterRes predict Xn i).2.1) ∧
    (sweepAll predict Xn).evals
        = (List.range (ncolsOf Xn)).filterMap (fun i =>
            if (iterRes predict Xn i).2.2 then some (i, sweepMatrix Xn i) else none) := by
  have := foldl_sweep_char predict Xn (List.range (ncolsOf Xn))
    ⟨Xn.map (fun _ => medVec Xn), [], [], []⟩ (by simp)
  exact ⟨by simpa [sweepAll] using this.1, by simpa [sweepAll] using this.2.1,
    by simpa [sweepAll] using this.2.2.1⟩

lemma getD_map_range {α : Type} (f : Nat → α) (p i : Nat) (hi : i < p) (d : α) :
    ((List.range p).map f).getD i d = f i := by
  rw [List.getD_eq_getElem?_getD, List.getElem?_map, List.getElem?_range hi]
  rfl

lemma sampleVar_nonneg (xs : List ℚ) (h : 1 < xs.length) : 0 ≤ sampleVar xs := by
  unfold sampleVar
  apply div_nonneg
  · apply List.sum_nonneg
    intro x hx
    obtain ⟨y, -, rfl⟩ := List.mem_map.mp hx
    positivity
  · have h2 : (2 : ℚ) ≤ (xs.length : ℚ) := by exact_mod_cast h
    linarith

/-- The least-squares slope as the spec words it: covariance divided by
variance over the finite subset, treated as zero when the variance of the
swept column in that subset is below the `eps_var` threshold. -/
def lsSlope (xv yv : List ℚ) : ℚ :=
  if sampleVar xv < epsVar then 0 else sampleCov xv yv / sampleVar xv

/-! ## Claim theorems: the sensitivity estimator (C1, C2, C3, C10) -/

lemma ratSign_mem (q : ℚ) : ratSign q = 1 ∨ ratSign q = 0 ∨ ratSign q = -1 := by
  unfold ratSign
  split
  · exact Or.inl rfl
  · split
    · exact Or.inr (Or.inr rfl)
    · exact Or.inr (Or.inl rfl)

/-- The slope value computed inside a non-degenerate, non-sparse
iteration. -/
def iterSlope (pr : List ℚ → V) (Xn : List (List ℚ)) (j : Nat) : ℚ :=
  let pairs := finitePairsAt pr Xn j
  let xv := pairs.map Prod.fst
  let vx := if 1 < xv.length then sampleVar xv else 0
  if vx < epsVar then 0 else sampleCov xv (pairs.map Prod.snd) / vx

lemma iterRes_sgn_form (pr : List ℚ → V) (Xn : List (List ℚ)) (j : Nat) :
    (iterRes pr Xn j).2.1 = 0 ∨ ∃ q, (iterRes pr Xn j).2.1 = ratSign q := by
  by_cases hd : popVar (column Xn j) < stdThreshSq
  · exact Or.inl (by simp [iterRes, hd])
  · by_cases hp : (finitePairsAt pr Xn j).length < 2
    · exact Or.inl (by simp [iterRes, hd, hp])
    · exact Or.inr ⟨iterSlope pr Xn j, by simp [iterRes, iterSlope, hd, hp]⟩

lemma iterRes_guard (pr : List ℚ → V) (Xn : List (List ℚ)) (i : Nat)
    (h : popVar (column Xn i) < stdThreshSq ∨ (finitePairsAt pr Xn i).length < 2) :
    (iterRes pr Xn i).1 = 0 ∧ (iterRes pr Xn i).2.1 = 0 := by
  unfold iterRes
  rcases h with hd | hp
  · simp [hd]
  · by_cases hd : popVar (column Xn i) < stdThreshSq
    · simp [hd]
    · simp [hd, hp]

/-- **C1.** If the standard deviation of column `i` of the cleaned matrix
is below the `1e-12` threshold (equivalently, its population variance is
below `10⁻²⁴`), or fewer than 2 finite `(xcol, y_pred)` pairs survive the
joint mask, then `importance[i] = 0` and `sign[i] = 0`; in the
near-constant case no matrix for iteration `i` is ever passed to the
predictor, and the zero outputs hold for every possible fitted surface. -/
theorem sweep_guard_zero (predict : List ℚ → V) (Xn : List (List ℚ)) (i : Nat)
    (hi : i < ncolsOf Xn)
    (h : popVar (column Xn i) < stdThreshSq ∨ (finitePairsAt predict Xn i).length < 2) :
    (sweepAll predict Xn).vars.getD i 1 = 0 ∧
    (sweepAll predict Xn).sgns.getD i 1 = 0 ∧
    (popVar (column Xn i) < stdThreshSq →
      (∀ M, (i, M) ∉ (sweepAll predict Xn).evals) ∧
      ∀ predict' : List ℚ → V,
        (sweepAll predict' Xn).vars.getD i 1 = 0 ∧
        (sweepAll predict' Xn).sgns.getD i 1 = 0) := by
  obtain ⟨hv, hs, he⟩ := sweepAll_char predict Xn
  obtain ⟨h1, h2⟩ := iterRes_guard predict Xn i h
  refine ⟨?_, ?_, ?_⟩
  · rw [hv, getD_map_range _ _ _ hi, h1]
  · rw [hs, getD_map_range _ _ _ hi, h2]
  · intro hd
    constructor
    · intro M hM
      rw [he] at hM
      obtain ⟨a, -, hfa⟩ := List.mem_filterMap.mp hM
      by_cases hc : (iterRes predict Xn a).2.2 = true
      · rw [if_pos hc] at hfa
        obtain ⟨rfl, -⟩ := Prod.mk.injEq .. ▸ Option.some.injEq .. ▸ hfa
        have : (iterRes predict Xn a).2.2 = false := by
          unfold iterRes; simp [hd]
        rw [this] at hc; exact Bool.false_ne_true hc
      · rw [if_neg hc] at hfa; exact Option.noConfusion hfa
    · intro predict'
      obtain ⟨hv', hs', -⟩ := sweepAll_char predict' Xn
      obtain ⟨h1', h2'⟩ := iterRes_guard predict' Xn i (Or.inl hd)
      exact ⟨by rw [hv', getD_map_range _ _ _ hi, h1'],
             by rw [hs', getD_map_range _ _ _ hi, h2']⟩

/-- **C2.** For a non-degenerate column with at least two finite pairs,
`importance[i]` is the ddof = 1 sample variance of the finite predicted
values (masked jointly with the swept column), and every entry of the
importance vector is non-negative. -/
theorem importance_is_sample_variance (predict : List ℚ → V)
    (Xn : List (List ℚ)) (i : Nat) (hi : i < ncolsOf Xn)
    (hnd : ¬ popVar (column Xn i) < stdThreshSq)
    (hp : 2 ≤ (finitePairsAt predict Xn i).length) :
    (sweepAll predict Xn).vars.getD i 1
        = sampleVar ((finitePairsAt predict Xn i).map Prod.snd) ∧
    ∀ j : Nat, 0 ≤ (sweepAll predict Xn).vars.getD j 0 := by
  obtain ⟨hv, -, -⟩ := sweepAll_char predict Xn
  constructor
  · rw [hv, getD_map_range _ _ _ hi]
    unfold iterRes
    rw [if_neg hnd, if_neg (by omega)]
    have hlen : 1 < ((finitePairsAt predict Xn i).map Prod.snd).length := by
      rw [List.length_map]; omega
    simp only [hlen, if_true]
  · intro j
    rw [hv]
    by_cases hj : j < ncolsOf Xn
    · rw [getD_map_range _ _ _ hj]
      unfold iterRes
      split
      · exact le_refl 0
      · dsimp only
        split
        · exact le_refl 0
        · split
          · next hlen => exact sampleVar_nonneg _ hlen
          · exact le_refl 0
    · rw [List.getD_eq_default _ _ (by simp [Nat.le_of_not_lt hj])]

/-- **C3.** For a non-degenerate column with at least two finite pairs,
`sign[i]` is the sign of the least-squares slope (covariance over
variance, zero when the column's variance in the finite subset is below
the threshold) between the observed column values and the predictions;
every sign entry is `1`, `0` or `-1`, and an exactly-zero slope gives 0. -/
theorem gradient_sign_of_slope (predict : List ℚ → V) (Xn : List (List ℚ))
    (i : Nat) (hi : i < ncolsOf Xn)
    (hnd : ¬ popVar (column Xn i) < stdThreshSq)
    (hp : 2 ≤ (finitePairsAt predict Xn i).length) :
    (sweepAll predict Xn).sgns.getD i 2
        = ratSign (lsSlope ((finitePairsAt predict Xn i).map Prod.fst)
            ((finitePairsAt predict Xn i).map Prod.snd)) ∧
    (∀ j : Nat, (sweepAll predict Xn).sgns.getD j 0 = 1 ∨
        (sweepAll predict Xn).sgns.getD j 0 = 0 ∨
        (sweepAll predict Xn).sgns.getD j 0 = -1) ∧
    (lsSlope ((finitePairsAt predict Xn i).map Prod.fst)
        ((finitePairsAt predict Xn i).map Prod.snd) = 0 →
      (sweepAll predict Xn).sgns.getD i 2 = 0) := by
  obtain ⟨-, hs, -⟩ := sweepAll_char predict Xn
  have hmain : (sweepAll predict Xn).sgns.getD i 2
      = ratSign (lsSlope ((finitePairsAt predict Xn i).map Prod.fst)
          ((finitePairsAt predict Xn i).map Prod.snd)) := by
    rw [hs, getD_map_range _ _ _ hi]
    unfold iterRes lsSlope
    rw [if_neg hnd, if_neg (by omega)]
    have hlen : 1 < ((finitePairsAt predict Xn i).map Prod.fst).length := by
      rw [List.length_map]; omega
    simp only [hlen, if_true]
  refine ⟨hmain, ?_, ?_⟩
  · intro j
    rw [hs]
    by_cases hj : j < ncolsOf Xn
    · rw [getD_map_range _ _ _ hj]
      rcases iterRes_sgn_form predict Xn j with h0 | ⟨q, hq⟩
      · rw [h0]; exact Or.inr (Or.inl rfl)
      · rw [hq]; exact ratSign_mem q
    · rw [List.getD_eq_default _ _ (by simp [Nat.le_of_not_lt hj])]
      exact Or.inr (Or.inl rfl)
  · intro h0
    rw [hmain, h0]
    unfold ratSign
    norm_num

/-- **C10.** Every matrix actually passed to the fitted surface during
iteration `i` is exactly the canonical sweep matrix of `i`: entry `(k, j)`
is the column-`j` median for `j ≠ i` and the observed value `Xn[k, i]` for
`j = i` — nothing written by an earlier iteration into the shared buffer
survives into a later evaluation. -/
theorem sweep_buffer_no_leak (predict : List ℚ → V) (Xn : List (List ℚ))
    (i : Nat) (M : List (List ℚ)) (hmem : (i, M) ∈ (sweepAll predict Xn).evals) :
    M = sweepMatrix Xn i ∧ i < ncolsOf Xn ∧
    ∀ k j : Nat, k < Xn.length → j < ncolsOf Xn →
      (M.getD k []).getD j 0
        = if j = i then (column Xn i).getD k 0 else (medVec Xn).getD j 0 := by
  obtain ⟨-, -, he⟩ := sweepAll_char predict Xn
  rw [he] at hmem
  obtain ⟨a, ha, hfa⟩ := List.mem_filterMap.mp hmem
  have hai : a = i ∧ sweepMatrix Xn a = M := by
    by_cases hc : (iterRes predict Xn a).2.2 = true
    · rw [if_pos hc] at hfa
      have := Option.some.inj hfa
      exact ⟨congrArg Prod.fst this, congrArg Prod.snd this⟩
    · rw [if_neg hc] at hfa; exact Option.noConfusion hfa
  obtain ⟨rfl, hM⟩ := hai
  have hilt : a < ncolsOf Xn := List.mem_range.mp ha
  have hmedlen : (medVec Xn).length = ncolsOf Xn := by simp [medVec]
  refine ⟨hM.symm, hilt, ?_⟩
  intro k j hk hj
  have hk' : k < (column Xn a).length := by rw [length_column]; exact hk
  have hrow : (sweepMatrix Xn a).getD k []
      = (medVec Xn).set a ((column Xn a).getD k 0) := by
    unfold sweepMatrix
    rw [List.getD_eq_getElem _ _ (by simpa [length_column] using hk),
      List.getElem_map, List.getD_eq_getElem _ _ hk']
  rw [← hM, hrow]
  by_cases hji : j = a
  · subst hji
    rw [if_pos rfl,
      List.getD_eq_getElem ((medVec Xn).set j ((column Xn j).getD k 0)) 0
        (by simpa [hmedlen] using hj),
      List.getElem_set_self]
  · rw [if_neg hji,
      List.getD_eq_getElem ((medVec Xn).set a ((column Xn a).getD k 0)) 0
        (by simpa [hmedlen] using hj),
      List.getElem_set_ne (fun h => hji h.symm),
      List.getD_eq_getElem (medVec Xn) 0 (by simpa [hmedlen] using hj)]

/-! ## Concrete data for witnesses -/

/-- A cleaned 3×2 matrix: column 0 is non-degenerate, column 1 constant. -/
def Xw : List (List ℚ) := [[1, 5], [2, 5], [3, 5]]

/-- A concrete fitted surface: the value of column 0. -/
def predictW : List ℚ → V := fun r => some (r.getD 0 0)

/-- Witness for `sweep_guard_zero`: on `Xw`, column 1 is constant, so both
outputs at index 1 are zero, no matrix for iteration 1 reaches the
predictor, and the zeros hold for every surface. -/
theorem sweep_guard_zero_witness :
    1 < ncolsOf Xw ∧ popVar (column Xw 1) < stdThreshSq ∧
    ((sweepAll predictW Xw).vars.getD 1 1 = 0 ∧
     (sweepAll predictW Xw).sgns.getD 1 1 = 0 ∧
     (popVar (column Xw 1) < stdThreshSq →
       (∀ M, (1, M) ∉ (sweepAll predictW Xw).evals) ∧
       ∀ predict' : List ℚ → V,
         (sweepAll predict' Xw).vars.getD 1 1 = 0 ∧
         (sweepAll predict' Xw).sgns.getD 1 1 = 0)) :=
  ⟨by decide, by decide, sweep_guard_zero predictW Xw 1 (by decide) (Or.inl (by decide))⟩

/-- Witness for `importance_is_sample_variance` on `Xw`, column 0. -/
theorem importance_is_sample_variance_witness :
    0 < ncolsOf Xw ∧ ¬ popVar (column Xw 0) < stdThreshSq ∧
    2 ≤ (finitePairsAt predictW Xw 0).length ∧
    ((sweepAll predictW Xw).vars.getD 0 1
        = sampleVar ((finitePairsAt predictW Xw 0).map Prod.snd) ∧
     ∀ j : Nat, 0 ≤ (sweepAll predictW Xw).vars.getD j 0) :=
  ⟨by decide, by decide, by decide,
   importance_is_sample_variance predictW Xw 0 (by decide) (by decide) (by decide)⟩

/-- Witness for `gradient_sign_of_slope` on `Xw`, column 0. -/
theorem gradient_sign_of_slope_witness :
    0 < ncolsOf Xw ∧ ¬ popVar (column Xw 0) < stdThreshSq ∧
    2 ≤ (finitePairsAt predictW Xw 0).length ∧
    ((sweepAll predictW Xw).sgns.getD 0 2
        = ratSign (lsSlope ((finitePairsAt predictW Xw 0).map Prod.fst)
            ((finitePairsAt predictW Xw 0).map Prod.snd)) ∧
     (∀ j : Nat, (sweepAll predictW Xw).sgns.getD j 0 = 1 ∨
         (sweepAll predictW Xw).sgns.getD j 0 = 0 ∨
         (sweepAll predictW Xw).sgns.getD j 0 = -1) ∧
     (lsSlope ((finitePairsAt predictW Xw 0).map Prod.fst)
         ((finitePairsAt predictW Xw 0).map Prod.snd) = 0 →
       (sweepAll predictW Xw).sgns.getD 0 2 = 0)) :=
  ⟨by decide, by decide, by decide,
   gradient_sign_of_slope predictW Xw 0 (by decide) (by decide) (by decide)⟩

/-- Witness for `sweep_buffer_no_leak`: iteration 0 of `Xw` logs exactly
the canonical sweep matrix. -/
theorem sweep_buffer_no_leak_witness :
    (0, sweepMatrix Xw 0) ∈ (sweepAll predictW Xw).evals ∧
    (sweepMatrix Xw 0 = sweepMatrix Xw 0 ∧ 0 < ncolsOf Xw ∧
     ∀ k j : Nat, k < Xw.length → j < ncolsOf Xw →
       ((sweepMatrix Xw 0).getD k []).getD j 0
         = if j = 0 then (column Xw 0).getD k 0 else (medVec Xw).getD j 0) :=
  ⟨by decide, sweep_buffer_no_leak predictW Xw 0 (sweepMatrix Xw 0) (by decide)⟩

/-! ## Claim theorems: the sample loader (C4) -/

/-- A raw sample file holding exactly one row of 55 finite values. -/
def singleRowSample : Option (List (List V)) := some [List.replicate 55 (some 0)]

/-- **C4 counterexample.** A present raw file with one row of 55 finite
values and `R = 1` triggers none of the claim's failure conditions
(present, 55 columns, ≥ R rows), yet the loader raises the shape error:
`np.loadtxt` squeezes the 1×55 file to a 1-D array and the `ndim != 2`
test rejects it. -/
theorem load_lhc_single_row_rejected :
    singleRowSample ≠ none ∧
    ncolsOf (singleRowSample.getD []) = 55 ∧
    1 ≤ (singleRowSample.getD []).length ∧
    load_lhc_first_n singleRowSample 1
      = .error (.valueError "LHC must be [n,>=55]") := by
  decide

/-- **C4 (amended).** The loader returns rows `0 .. R-1` verbatim,
restricted to the 37-column subset in order, and fails exactly when the
file is missing, the parsed array is not 2-D (fewer than 2 rows or fewer
than 2 columns after numpy squeezing) or has fewer than 55 columns, or
has fewer than R rows. -/
theorem load_lhc_contract (s : Option (List (List V))) (R : Nat) :
    (s = none →
      load_lhc_first_n s R = .error (.fileNotFoundError "Missing LHC sample file")) ∧
    (∀ L, s = some L → (ndimOf L ≠ 2 ∨ ncolsOf L < 55) →
      load_lhc_first_n s R = .error (.valueError "LHC must be [n,>=55]")) ∧
    (∀ L, s = some L → ndimOf L = 2 → 55 ≤ ncolsOf L → L.length < R →
      load_lhc_first_n s R = .error (.valueError "LHC has too few rows")) ∧
    (∀ L, s = some L → ndimOf L = 2 → 55 ≤ ncolsOf L → R ≤ L.length →
      load_lhc_first_n s R
          = .ok ((L.take R).map (fun r => PAR_INDEX.map (fun j => r.getD j none))) ∧
        ((L.take R).map (fun r => PAR_INDEX.map (fun j => r.getD j none))).length = R ∧
        ∀ row ∈ (L.take R).map (fun r => PAR_INDEX.map (fun j => r.getD j none)),
          row.length = 37) := by
  refine ⟨?_, ?_, ?_, ?_⟩
  · rintro rfl; rfl
  · rintro L rfl hbad
    unfold load_lhc_first_n
    dsimp only
    rw [if_pos hbad]
  · rintro L rfl h2 h55 hlt
    have hnot : ¬(ndimOf L ≠ 2 ∨ ncolsOf L < 55) := by
      push_neg; exact ⟨h2, h55⟩
    unfold load_lhc_first_n
    dsimp only
    rw [if_neg hnot, if_pos hlt]
  · rintro L rfl h2 h55 hR
    have hnot : ¬(ndimOf L ≠ 2 ∨ ncolsOf L < 55) := by
      push_neg; exact ⟨h2, h55⟩
    have hnot2 : ¬(L.length < R) := Nat.not_lt.mpr hR
    refine ⟨?_, ?_, ?_⟩
    · unfold load_lhc_first_n
      dsimp only
      rw [if_neg hnot, if_neg hnot2]
    · rw [List.length_map, List.length_take]; omega
    · intro row hrow
      obtain ⟨r, -, rfl⟩ := List.mem_map.mp hrow
      simp [PAR_INDEX]

/-- A well-formed 2×55 raw sample. -/
def okSample : Option (List (List V)) :=
  some [List.replicate 55 (some 0), List.replicate 55 (some 1)]

/-- Witness for `load_lhc_contract`: success branch on a 2×55 file. -/
theorem load_lhc_contract_witness :
    ndimOf [List.replicate 55 ((some 0 : V)), List.replicate 55 (some 1)] = 2 ∧
    55 ≤ ncolsOf [List.replicate 55 ((some 0 : V)), List.replicate 55 (some 1)] ∧
    2 ≤ [List.replicate 55 ((some 0 : V)), List.replicate 55 (some 1)].length ∧
    (load_lhc_first_n okSample 2
        = .ok (([List.replicate 55 ((some 0 : V)), List.replicate 55 (some 1)].take 2).map
            (fun r => PAR_INDEX.map (fun j => r.getD j none))) ∧
      (([List.replicate 55 ((some 0 : V)), List.replicate 55 (some 1)].take 2).map
          (fun r => PAR_INDEX.map (fun j => r.getD j none))).length = 2 ∧
      ∀ row ∈ ([List.replicate 55 ((some 0 : V)), List.replicate 55 (some 1)].take 2).map
          (fun r => PAR_INDEX.map (fun j => r.getD j none)),
        row.length = 37) :=
  ⟨by decide, by decide, by decide,
   (load_lhc_contract okSample 2).2.2.2 _ rfl (by decide) (by decide) (by decide)⟩

/-! ## Claim theorems: the data cleaner (C5) -/

/-- **C5.** The cleaner keeps exactly the rows whose response and whose
parameter entries are all finite, as an order-preserving sublist of the
raw rows; it fails with the empty-dataset `ValueError` exactly when no
row survives — in particular for an empty or all-non-finite response —
and a failing run writes no output file. -/
theorem cleaning_contract (X : List (List V)) (y : List V) :
    (∀ p ∈ keptPairs X y, p.1.isSome = true ∧ ∀ v ∈ p.2, v.isSome = true) ∧
    List.Sublist (keptPairs X y) (y.zip X) ∧
    (keptPairs X y).length ≤ y.length ∧
    (cleanStep X y = .error (.valueError "No finite rows remain after cleaning X/y.")
      ↔ keptPairs X y = []) ∧
    ((y = [] ∨ ∀ v ∈ y, v = none) →
      cleanStep X y = .error (.valueError "No finite rows remain after cleaning X/y.")) ∧
    (∀ (inp : Inputs) (a : Args) (fit : List (List ℚ) → List ℚ → List ℚ → V)
        (st : Store) (e : PyErr),
      runPipeline inp a fit = .error e → runAndWrite inp a fit st = st) := by
  have hmask : ∀ p ∈ keptPairs X y, p.1.isSome = true ∧ ∀ v ∈ p.2, v.isSome = true := by
    intro p hp
    have h := List.mem_filter.mp hp
    have h2 := (Bool.and_eq_true _ _).mp h.2
    exact ⟨h2.1, fun v hv => List.all_eq_true.mp h2.2 v hv⟩
  have hiff : cleanStep X y
      = .error (.valueError "No finite rows remain after cleaning X/y.")
      ↔ keptPairs X y = [] := by
    by_cases hk : keptPairs X y = [] <;> simp [cleanStep, hk]
  refine ⟨hmask, List.filter_sublist _, ?_, hiff, ?_, ?_⟩
  · exact le_trans (List.length_filter_le _ _) (by rw [List.length_zip]; omega)
  · intro h
    apply hiff.mpr
    rcases h with rfl | hall
    · simp [keptPairs]
    · apply List.filter_eq_nil_iff.mpr
      intro p hp
      have h1 : p.1 ∈ y := (List.of_mem_zip hp).1
      rw [hall p.1 h1]
      simp
  · intro inp a fit st e h
    simp [runAndWrite, h]

/-- A raw matrix with one non-finite row and one finite row. -/
def Xc : List (List V) := [[some 1, none], [some 2, some 3]]

/-- An `Inputs` record on which the run fails at response discovery. -/
def inpFail : Inputs := ⟨[], fun _ _ => [], none⟩

def aW : Args := ⟨275/8, -165/16, "jan"⟩

def fitW : List (List ℚ) → List ℚ → List ℚ → V := fun _ _ _ => some 0

def stW : Store := fun _ => none

/-- Witness for `cleaning_contract`: an empty response vector fails with
the empty-dataset error, and a failing run leaves the store untouched. -/
theorem cleaning_contract_witness :
    cleanStep Xc ([] : List V)
        = .error (.valueError "No finite rows remain after cleaning X/y.") ∧
    runAndWrite inpFail aW fitW stW = stW :=
  ⟨(cleaning_contract Xc []).2.2.2.2.1 (Or.inl rfl),
   (cleaning_contract Xc []).2.2.2.2.2 inpFail aW fitW stW
     (.fileNotFoundError "No GP emulation file found") (by decide)⟩

/-! ## Claim theorem: idempotence of a repeated run (C9) -/

/-- **C9.** A run is a pure function of its inputs and of the (pure,
deterministic — spec §3/§4.4) fitted surface, and each output file is
overwritten wholesale: running the pipeline twice against the same store
leaves exactly the state of a single run, with identical contents for
both output files. -/
theorem pipeline_idempotent (inp : Inputs) (a : Args)
    (fit : List (List ℚ) → List ℚ → List ℚ → V) (st : Store) :
    runAndWrite inp a fit (runAndWrite inp a fit st) = runAndWrite inp a fit st := by
  unfold runAndWrite
  cases h : runPipeline inp a fit with
  | error e => rfl
  | ok r =>
      funext n
      unfold writeFile
      by_cases h1 : n = r.signFile <;> by_cases h2 : n = r.varFile <;> simp [h1, h2]

/-! ## Claim theorems: response-file discovery (C7, C8) -/

lemma newestFrom_cons (f c : Fl) (t : List Fl) :
    newestFrom f (c :: t) = newestFrom (if f.mtime < c.mtime then c else f) t := rfl

/-- The returned candidate is one of the candidates, of maximal mtime. -/
lemma newestFrom_spec (l : List Fl) :
    ∀ f, newestFrom f l ∈ f :: l ∧ ∀ g ∈ f :: l, g.mtime ≤ (newestFrom f l).mtime := by
  induction l with
  | nil =>
      intro f
      refine ⟨by simp [newestFrom], ?_⟩
      intro g hg
      rw [List.mem_singleton.mp hg]
      exact le_refl _
  | cons c t ih =>
      intro f
      rw [newestFrom_cons]
      by_cases hfc : f.mtime < c.mtime
      · rw [if_pos hfc]
        obtain ⟨h1, h2⟩ := ih c
        constructor
        · exact List.mem_cons_of_mem _ h1
        · intro g hg
          rcases List.mem_cons.mp hg with rfl | hg2
          · exact le_trans (le_of_lt hfc) (h2 c (List.mem_cons_self c t))
          · exact h2 g hg2
      · rw [if_neg hfc]
        obtain ⟨h1, h2⟩ := ih f
        constructor
        · rcases List.mem_cons.mp h1 with h | h
          · rw [h]; exact List.mem_cons_self f (c :: t)
          · exact List.mem_cons_of_mem _ (List.mem_cons_of_mem _ h)
        · intro g hg
          rcases List.mem_cons.mp hg with rfl | hg2
          · exact h2 g (List.mem_cons_self g t)
          · rcases List.mem_cons.mp hg2 with rfl | hg3
            · exact le_trans (le_of_not_lt hfc) (h2 f (List.mem_cons_self f t))
            · exact h2 g (List.mem_cons_of_mem _ hg3)

/-- The first searched root whose in-root tiers produce any candidate,
with its candidate list (the amended discovery order is root-major). -/
def firstRootHit (fs : FS) (ilat ilon : ℚ) (month : String) : Option (List Fl) :=
  ((searchRoots ilat).map (rootCandidates fs ilat ilon month)).find?
    (fun l => !l.isEmpty)

/-- The amended discovery contract, structured: newest candidate of the
first root that hits, else the raw fallback, else failure. -/
def findSpec (fs : FS) (ilat ilon : ℚ) (month : String) : Except String Fl :=
  match firstRootHit fs ilat ilon month with
  | some (c :: rest) => .ok (newestFrom c rest)
  | _ =>
      match (dirFiles fs tiny_input_dir).find?
          (fun f => f.name == rawFallbackName ilat ilon) with
      | some f => .ok f
      | none => .error "No GP emulation file found"

lemma find_gp_file_eq_findSpec (fs : FS) (ilat ilon : ℚ) (month : String) :
    find_gp_file fs ilat ilon month = findSpec fs ilat ilon month := by
  unfold find_gp_file findSpec firstRootHit
  simp only [searchRoots, List.map_cons, List.map_nil, List.foldl_cons, List.foldl_nil]
  by_cases h1 : rootCandidates fs ilat ilon month
      (tiny_gp_out_dir ++ "/baseline/" ++ latFolder ilat) = []
  · by_cases h2 : rootCandidates fs ilat ilon month
        (tiny_gp_out_dir ++ "/optimised/" ++ latFolder ilat) = []
    · by_cases h3 : rootCandidates fs ilat ilon month
          (tiny_gp_out_dir ++ "/" ++ latFolder ilat) = []
      · simp [h1, h2, h3]
      · obtain ⟨c, rest, hc⟩ := List.exists_cons_of_ne_nil h3
        simp [h1, h2, hc]
    · obtain ⟨c, rest, hc⟩ := List.exists_cons_of_ne_nil h2
      simp [h1, hc]
  · obtain ⟨c, rest, hc⟩ := List.exists_cons_of_ne_nil h1
    simp [hc]

/-- 34.375 as an exact rational (exactly representable as a double). -/
def latQ : ℚ := 275 / 8

/-- -10.3125 as an exact rational (exactly representable as a double). -/
def lonQ : ℚ := -165 / 16

/-- A file in the baseline lat-folder that only the substring-token tier
accepts. -/
def tokenOnlyFile : Fl :=
  ⟨tiny_gp_out_dir ++ "/baseline/" ++ latFolder latQ,
   "emulated_mean_values_H2SO4_jan_ilat_34.375_ilon_-10.312_extra.dat", 0⟩

/-- A file in the optimised lat-folder that the exact pattern accepts. -/
def preciseFile : Fl :=
  ⟨tiny_gp_out_dir ++ "/optimised/" ++ latFolder latQ,
   "emulated_mean_values_H2SO4_jan_ilat_34.375_ilon_-10.3125_10000_w_o_carb.dat", 5⟩

def fsMixed : FS := [tokenOnlyFile, preciseFile]

/-- **C7 counterexample.** Discovery is not tiered exact → relaxed →
token across the search space: with an exact-pattern candidate present in
the optimised lat-folder and only a token-tier candidate in the baseline
lat-folder, the finder returns the token-tier file (root order dominates
tier order), so the exact tier does not precede the token tier. -/
theorem discovery_root_major_cex :
    preciseMatch latQ lonQ "jan" preciseFile.name = true ∧
    preciseFile ∈ fsMixed ∧
    preciseFile.dir ∈ searchRoots latQ ∧
    find_gp_file fsMixed latQ lonQ "jan" = .ok tokenOnlyFile ∧
    preciseMatch latQ lonQ "jan" tokenOnlyFile.name = false ∧
    relaxed1Match latQ lonQ "jan" tokenOnlyFile.name = false ∧
    relaxed2Match latQ lonQ "jan" tokenOnlyFile.name = false := by
  decide

/-- **C7 (amended).** Discovery is root-major: for each root folder in
order (baseline lat-folder, optimised lat-folder, plain lat-folder) the
tiers exact → relaxed → token are tried within that root, and the first
root with any candidate wins; the raw-input fallback is tried only after
every root, the most-recently-modified candidate of the winning root is
returned, and the finder fails exactly when no root yields a candidate
and the raw fallback file is absent. -/
theorem discovery_tiering (fs : FS) (ilat ilon : ℚ) (month : String) :
    (∀ cs, firstRootHit fs ilat ilon month = some cs →
      ∃ f, find_gp_file fs ilat ilon month = .ok f ∧ f ∈ cs ∧
        ∀ g ∈ cs, g.mtime ≤ f.mtime) ∧
    (firstRootHit fs ilat ilon month = none →
      find_gp_file fs ilat ilon month =
        (match (dirFiles fs tiny_input_dir).find?
            (fun f => f.name == rawFallbackName ilat ilon) with
         | some f => .ok f
         | none => .error "No GP emulation file found")) ∧
    (find_gp_file fs ilat ilon month = .error "No GP emulation file found" ↔
      firstRootHit fs ilat ilon month = none ∧
      (dirFiles fs tiny_input_dir).find?
          (fun f => f.name == rawFallbackName ilat ilon) = none) := by
  refine ⟨?_, ?_, ?_⟩
  · intro cs hcs
    have hne : cs ≠ [] := by
      have := List.find?_some hcs
      intro hnil
      rw [hnil] at this
      simp at this
    obtain ⟨c, rest, rfl⟩ := List.exists_cons_of_ne_nil hne
    refine ⟨newestFrom c rest, ?_, (newestFrom_spec rest c).1,
      (newestFrom_spec rest c).2⟩
    rw [find_gp_file_eq_findSpec]
    unfold findSpec
    rw [hcs]
  · intro hnone
    rw [find_gp_file_eq_findSpec]
    unfold findSpec
    rw [hnone]
  · rw [find_gp_file_eq_findSpec]
    unfold findSpec
    cases hfr : firstRootHit fs ilat ilon month with
    | some cs =>
        have hne : cs ≠ [] := by
          have := List.find?_some hfr
          intro hnil
          rw [hnil] at this
          simp at this
        obtain ⟨c, rest, rfl⟩ := List.exists_cons_of_ne_nil hne
        simp
    | none =>
        cases hraw : (dirFiles fs tiny_input_dir).find?
            (fun f => f.name == rawFallbackName ilat ilon) with
        | some f => simp
        | none => simp

/-- Witness for `discovery_tiering`: on `fsMixed` the first root hit is
the baseline folder with the token-tier candidate. -/
theorem discovery_tiering_witness :
    firstRootHit fsMixed latQ lonQ "jan" = some [tokenOnlyFile] ∧
    (∃ f, find_gp_file fsMixed latQ lonQ "jan" = .ok f ∧ f ∈ [tokenOnlyFile] ∧
      ∀ g ∈ [tokenOnlyFile], g.mtime ≤ f.mtime) :=
  ⟨by decide, (discovery_tiering fsMixed latQ lonQ "jan").1 [tokenOnlyFile] (by decide)⟩

/-- The raw demo name the spec scenario says gets found. -/
def rawPrecName : String := "lat_34.375_lon_-10.3125.dat"

/-- The raw demo name the code actually constructs (3-decimal longitude,
round-half-even). -/
def rawRoundName : String := "lat_34.375_lon_-10.312.dat"

/-- **C8 counterexample.** With `lat=34.375`, `lon=-10.3125`, no GP file
anywhere, and a raw demo input named `lat_34.375_lon_-10.3125.dat` in the
tiny-input directory, the finder does NOT return that file — it fails:
the fallback path is built with `f"{ilon:.3f}"`, which renders
`-10.3125` as `-10.312`, so the existence test misses the file. -/
theorem raw_fallback_precision_cex :
    dirFiles [⟨tiny_input_dir, rawPrecName, 0⟩] tiny_input_dir
        = [⟨tiny_input_dir, rawPrecName, 0⟩] ∧
    find_gp_file [⟨tiny_input_dir, rawPrecName, 0⟩] latQ lonQ "jan"
        = .error "No GP emulation file found" := by
  decide

/-- **C8 (amended).** The raw fallback name is built at 3-decimal
precision in both coordinates, so for `lon=-10.3125` the demo file must
be named `lat_34.375_lon_-10.312.dat` (round-half-even); with that name
present and no GP file in any tier, the finder returns it instead of
failing. -/
theorem raw_fallback_three_decimals :
    rawFallbackName latQ lonQ = rawRoundName ∧
    find_gp_file [⟨tiny_input_dir, rawRoundName, 0⟩] latQ lonQ "jan"
        = .ok ⟨tiny_input_dir, rawRoundName, 0⟩ := by
  decide

/-! ## Claim theorem: the output sample-count label (C6) -/

/-- **C6.** On every successful run the two output files carry one shared
tail embedding a single sample-count label: the label is the count
recovered from the GP response filename when that count exists and equals
the raw (pre-cleaning) response length, and the actually-used
(post-cleaning) row count otherwise. -/
theorem output_label_rule (inp : Inputs) (a : Args)
    (fit : List (List ℚ) → List ℚ → List ℚ → V) (r : RunOut)
    (h : runPipeline inp a fit = .ok r) :
    ∃ gp X Xn yn label,
      find_gp_file inp.fs a.ilat a.ilon a.month = .ok gp ∧
      load_lhc_first_n inp.sample (loadVector (inp.content gp.dir gp.name)).length
          = .ok X ∧
      cleanStep X (loadVector (inp.content gp.dir gp.name)) = .ok (Xn, yn) ∧
      (inferNGp gp.name = some (loadVector (inp.content gp.dir gp.name)).length →
        label = (loadVector (inp.content gp.dir gp.name)).length) ∧
      (inferNGp gp.name ≠ some (loadVector (inp.content gp.dir gp.name)).length →
        label = yn.length) ∧
      r.varFile = gamOutDir a.ilat ++ "GAM_variances_H2SO4_"
          ++ (a.month ++ "_" ++ toString label ++ "_ilat_" ++ fmtFixed 3 a.ilat
              ++ "_ilon_" ++ fmtFixed 4 a.ilon ++ ".dat") ∧
      r.signFile = gamOutDir a.ilat ++ "GAM_gradient_signs_H2SO4_"
          ++ (a.month ++ "_" ++ toString label ++ "_ilat_" ++ fmtFixed 3 a.ilat
              ++ "_ilon_" ++ fmtFixed 4 a.ilon ++ ".dat") := by
  unfold runPipeline at h
  cases hgp : find_gp_file inp.fs a.ilat a.ilon a.month with
  | error e => rw [hgp] at h; exact absurd h (by simp)
  | ok gp =>
      rw [hgp] at h
      dsimp only at h
      cases hX : load_lhc_first_n inp.sample
          (loadVector (inp.content gp.dir gp.name)).length with
      | error e => rw [hX] at h; exact absurd h (by simp)
      | ok X =>
          rw [hX] at h
          dsimp only at h
          cases hC : cleanStep X (loadVector (inp.content gp.dir gp.name)) with
          | error e => rw [hC] at h; exact absurd h (by simp)
          | ok p =>
              obtain ⟨Xn, yn⟩ := p
              rw [hC] at h
              dsimp only at h
              injection h with hr
              refine ⟨gp, X, Xn, yn,
                (match inferNGp gp.name with
                 | some k =>
                     if k = (loadVector (inp.content gp.dir gp.name)).length then k
                     else yn.length
                 | none => yn.length),
                rfl, hX, hC, ?_, ?_, ?_, ?_⟩
              · intro hk; rw [hk]; simp
              · intro hk
                cases hni : inferNGp gp.name with
                | none => rfl
                | some k =>
                    have hkne : k ≠ (loadVector (inp.content gp.dir gp.name)).length := by
                      intro hkl
                      exact hk (by rw [hni, hkl])
                    simp [hkne]
              · rw [← hr]
                dsimp only [varFileName]
                simp [String.append_assoc]
              · rw [← hr]
                dsimp only [signFileName]
                simp [String.append_assoc]

/-- A GP response file whose name the exact pattern matches and whose
recovered count is 2. -/
def gpW : Fl :=
  ⟨tiny_gp_out_dir ++ "/baseline/" ++ latFolder latQ,
   "emulated_mean_values_H2SO4_jan_ilat_34.375_ilon_-10.3125_2_w_o_carb.dat", 0⟩

/-- Inputs for a successful end-to-end run: the GP file above with a
2-value response column, and a 2×55 all-finite raw sample. -/
def inpW : Inputs :=
  ⟨[gpW],
   fun d n => if d = gpW.dir ∧ n = gpW.name then [[some 1], [some 2]] else [],
   some [List.replicate 55 (some 0), List.replicate 55 (some 1)]⟩

set_option maxRecDepth 100000 in
/-- Witness for `output_label_rule`: a full successful pipeline run whose
label is the recovered count 2 (equal to the raw response length). -/
theorem output_label_rule_witness :
    runPipeline inpW aW fitW
        = .ok ⟨varFileName aW 2, List.replicate 37 0,
               signFileName aW 2, List.replicate 37 0⟩ ∧
    (∃ gp X Xn yn label,
      find_gp_file inpW.fs aW.ilat aW.ilon aW.month = .ok gp ∧
      load_lhc_first_n inpW.sample (loadVector (inpW.content gp.dir gp.name)).length
          = .ok X ∧
      cleanStep X (loadVector (inpW.content gp.dir gp.name)) = .ok (Xn, yn) ∧
      (inferNGp gp.name = some (loadVector (inpW.content gp.dir gp.name)).length →
        label = (loadVector (inpW.content gp.dir gp.name)).length) ∧
      (inferNGp gp.name ≠ some (loadVector (inpW.content gp.dir gp.name)).length →
        label = yn.length) ∧
      (RunOut.mk (varFileName aW 2) (List.replicate 37 0)
          (signFileName aW 2) (List.replicate 37 0)).varFile
        = gamOutDir aW.ilat ++ "GAM_variances_H2SO4_"
          ++ (aW.month ++ "_" ++ toString label ++ "_ilat_" ++ fmtFixed 3 aW.ilat
              ++ "_ilon_" ++ fmtFixed 4 aW.ilon ++ ".dat") ∧
      (RunOut.mk (varFileName aW 2) (List.replicate 37 0)
          (signFileName aW 2) (List.replicate 37 0)).signFile
        = gamOutDir aW.ilat ++ "GAM_gradient_signs_H2SO4_"
          ++ (aW.month ++ "_" ++ toString label ++ "_ilat_" ++ fmtFixed 3 aW.ilat
              ++ "_ilon_" ++ fmtFixed 4 aW.ilon ++ ".dat")) :=
  ⟨by decide,
   output_label_rule inpW aW fitW
     (RunOut.mk (varFileName aW 2) (List.replicate 37 0)
       (signFileName aW 2) (List.replicate 37 0)) (by decide)⟩

end GamPipeline
